import Mathlib

/-!
Verification of the raw-to-normalized transformation pipeline of the
Veltis data-ingestion repository (`src/processing/data_processor.py` and
`src/processing/data_cleaner.py`), as a shallow embedding in Lean 4.

Tables are embedded either as typed row records (when the column set is
static) or as a header/rows structure (when the column set is dynamic, as
for the health-metrics spreadsheet).  A pandas cell is `Option String`:
`none` is NaN/None, `some s` the stringified value.  Element-wise pandas
column operations become per-cell functions mapped over rows.
-/

/-- A pandas cell: `none` models NaN/None, `some s` a (stringified) value. -/
abbrev Cell := Option String

/-- Python `str(val)` on a cell: `str(NaN) = "nan"`. -/
def cellStr (c : Cell) : String :=
  match c with
  | none => "nan"
  | some s => s

/-- Python `str.lower` on one character, for ASCII letters and the accented
capitals appearing in the FINESS category labels. -/
def pyLowerChar (c : Char) : Char :=
  if 'A' ≤ c ∧ c ≤ 'Z' then Char.ofNat (c.toNat + 32)
  else if c = 'É' then 'é'
  else if c = 'È' then 'è'
  else if c = 'Ê' then 'ê'
  else if c = 'À' then 'à'
  else if c = 'Â' then 'â'
  else if c = 'Ç' then 'ç'
  else if c = 'Ô' then 'ô'
  else if c = 'Û' then 'û'
  else if c = 'Î' then 'î'
  else c

/-- Python `str.lower` on a string. -/
def pyLower (s : String) : String :=
  String.mk (s.toList.map pyLowerChar)

/-- `isSubAt pat l`: `pat` occurs at the start of `l`. -/
def isSubAt : List Char → List Char → Bool
  | [], _ => true
  | _ :: _, [] => false
  | p :: ps, c :: cs => p == c && isSubAt ps cs

/-- Python's substring test `pat in l`. -/
def containsSub (pat : List Char) : List Char → Bool
  | [] => pat.isEmpty
  | c :: cs => isSubAt pat (c :: cs) || containsSub pat cs

/-- `DataProcessor._map_category` (identical in `data_processor.py:39` and
`data_cleaner.py:26`): `val = str(val).lower()`, then the elif chain
`'public' in val → 'Public'`, `'privé' in val or 'prive' in val → 'Privé'`,
`'espic' in val → 'ESPIC'`, else `'Autre'`. -/
def mapCategory (v : Cell) : String :=
  let lv := (pyLower (cellStr v)).toList
  if containsSub "public".toList lv then "Public"
  else if containsSub "privé".toList lv || containsSub "prive".toList lv then "Privé"
  else if containsSub "espic".toList lv then "ESPIC"
  else "Autre"

/-- Decimal digits of `n`, most significant first (fuel-driven so that it
reduces in the kernel); embeds Python `str(int(n))` for natural `n`. -/
def natDecAux : Nat → Nat → List Char
  | 0, _ => []
  | fuel + 1, n =>
    if n < 10 then [Nat.digitChar n]
    else natDecAux fuel (n / 10) ++ [Nat.digitChar (n % 10)]

/-- Decimal digit list of `n` (no leading zeros). -/
def natDecL (n : Nat) : List Char := natDecAux (n + 1) n

/-- Python `str(int(n))`. -/
def natDec (n : Nat) : String := String.mk (natDecL n)

/-- Python `str.zfill w` on a digit list (no sign handling is needed since
all inputs here are unsigned digit strings): left-pad with `'0'` to width
`w`; a list of length `≥ w` is returned unchanged (the pad is empty). -/
def zfillL (w : Nat) (l : List Char) : List Char :=
  List.replicate (w - l.length) '0' ++ l

/-- The pandas idiom `.str.replace(r'\.0$', '', regex=True)`: remove one
trailing `".0"` artifact if present. -/
def stripDot0 (l : List Char) : List Char :=
  if isSubAt ['0', '.'] l.reverse then (l.reverse.drop 2).reverse else l

/-- FINESS facility-code normalization in the establishment extractor
(`data_processor.py:102`):
`.astype(str).str.replace(r'\.0$', '', regex=True).str.zfill(9)`. -/
def normFinessEtab (s : String) : String :=
  String.mk (zfillL 9 (stripDot0 s.toList))

/-- The same facility-code normalization in the qualification (HAS)
extractor (`data_processor.py:203`). -/
def normFinessQual (s : String) : String :=
  String.mk (zfillL 9 (stripDot0 s.toList))

/-- The same facility-code normalization in the health-metrics extractor
(`data_processor.py:256`). -/
def normFinessMetrics (s : String) : String :=
  String.mk (zfillL 9 (stripDot0 s.toList))

/-- `extract_dept` (`data_processor.py:133`): null postal code gives null;
otherwise `s_cp = str(int(cp)).zfill(5)`, and the department is
`s_cp[:3]` when `s_cp.startswith('97')`, else `s_cp[:2]`. -/
def extractDept (cp : Option Nat) : Option String :=
  match cp with
  | none => none
  | some n =>
    let s := zfillL 5 (natDecL n)
    if s.take 2 = ['9', '7'] then some (String.mk (s.take 3))
    else some (String.mk (s.take 2))

/-- Postal-code extraction from the combined "NNNNN CITY" field
(`data_processor.py:119-121`): the first regex `^(\d{5})` takes the first
five characters when they are all digits; the fallback `^(\d+)` takes the
(greedy) leading digit run; no leading digit gives NaN. -/
def extractPostal (s : String) : Option String :=
  let cs := s.toList
  if 5 ≤ cs.length ∧ (cs.take 5).all (fun c => c.isDigit) then
    some (String.mk (cs.take 5))
  else
    let d := cs.takeWhile (fun c => c.isDigit)
    if d.isEmpty then none else some (String.mk d)

/-- `pd.to_numeric(..., errors='coerce')` restricted to the digit strings
produced by `extractPostal`: parse a non-empty all-digit string, anything
else coerces to null. -/
def parseDigits (l : List Char) : Option Nat :=
  if l ≠ [] ∧ l.all (fun c => c.isDigit) then
    some (l.foldl (fun a c => a * 10 + (c.toNat - 48)) 0)
  else none

/-- The full postal-code pipeline of `load_clean_finess`
(`data_processor.py:119-124`): extract then coerce to nullable integer. -/
def postalCode (s : String) : Option Nat :=
  (extractPostal s).bind (fun t => parseDigits t.toList)

/-- The whitespace class of the regex `\s` (ASCII range). -/
def isSpaceChar (c : Char) : Bool :=
  c == ' ' || c == '\t' || c == '\n' || c == '\r' || c == '\x0b' || c == '\x0c'

/-- Categorical prefix stripping in `load_clean_health_metrics`
(`data_cleaner.py:283`): `.str.replace(r'^\d+\s*-\s*', '', regex=True)`.
The anchored pattern matches at most once, greedily: a non-empty leading
digit run, optional whitespace, a hyphen, optional whitespace. -/
def stripRankL (cs : List Char) : List Char :=
  let ds := cs.takeWhile (fun c => c.isDigit)
  if ds.isEmpty then cs
  else
    let r1 := cs.drop ds.length
    let sp := r1.takeWhile isSpaceChar
    match r1.drop sp.length with
    | c :: tail => if c = '-' then tail.dropWhile isSpaceChar else cs
    | [] => cs

/-- String-level wrapper of `stripRankL`. -/
def stripRank (s : String) : String :=
  String.mk (stripRankL s.toList)

/-- One text-typed cell of a health-metrics column after cleaning
(`data_cleaner.py:281-285`): `astype(str)` (NaN becomes `"nan"`), strip the
rank prefix, then any value equal to `'nan'` is set back to null. -/
def cleanTextVal (v : Cell) : Cell :=
  let t := stripRank (cellStr v)
  if t = "nan" then none else some t

/-- The cleaning applied to every value of a text-typed column. -/
def cleanObjectCol (col : List Cell) : List Cell :=
  col.map cleanTextVal

/-! ## DataFrame model for `_enforce_schema`

`_enforce_schema` (identical in `data_processor.py:50` and
`data_cleaner.py:37`) manipulates a pandas DataFrame column-wise, so here a
DataFrame is an explicit row count (the index length) together with an
ordered list of named columns. -/

/-- A pandas DataFrame: index length plus ordered named columns.  In a
well-formed frame every column has `nRows` cells. -/
structure DF where
  nRows : Nat
  cols : List (String × List Cell)
deriving DecidableEq

/-- The ordered column names of a frame. -/
def colNames (d : DF) : List String := d.cols.map Prod.fst

/-- `df.empty`: true when either axis has length 0. -/
def DF.isEmptyDF (d : DF) : Bool := d.nRows == 0 || d.cols.isEmpty

/-- `cs[f]` for a column list: the first column named `f`, if any. -/
def lookupCol (cs : List (String × List Cell)) (f : String) : Option (List Cell) :=
  match cs with
  | [] => none
  | (n, v) :: rest => if n = f then some v else lookupCol rest f

/-- `f in df.columns` for a column list. -/
def hasCol (cs : List (String × List Cell)) (f : String) : Bool :=
  match cs with
  | [] => false
  | (n, _) :: rest => n == f || hasCol rest f

/-- The `for field in schema_fields: if field not in df.columns:
df[field] = None` loop of `_enforce_schema`: each missing field is appended
as a column of nulls. -/
def addMissing (d : DF) (fs : List String) : DF :=
  match fs with
  | [] => d
  | f :: rest =>
    if hasCol d.cols f then addMissing d rest
    else addMissing ⟨d.nRows, d.cols ++ [(f, List.replicate d.nRows none)]⟩ rest

/-- The final `df[schema_fields]` projection: the named columns, in the
given order (all present after `addMissing`; a missing name would be a
pandas `KeyError`, rendered here as an empty column). -/
def selectCols (d : DF) (fs : List String) : DF :=
  ⟨d.nRows, fs.map (fun f => (f, (lookupCol d.cols f).getD []))⟩

/-- `DataProcessor._enforce_schema` (`data_processor.py:50-68`): an empty
frame short-circuits to `pd.DataFrame()`; otherwise add the missing schema
fields as null columns, then select the schema fields in order. -/
def enforceSchema (d : DF) (fs : List String) : DF :=
  if d.isEmptyDF then ⟨0, []⟩
  else selectCols (addMissing d fs) fs

/-- The state of the *caller's* frame after `_enforce_schema` returns:
`df[field] = None` mutates the argument in place, so on a non-empty frame
the argument ends up extended by the missing schema fields; on an empty
frame the early return leaves it untouched. -/
def enforceArgAfter (d : DF) (fs : List String) : DF :=
  if d.isEmptyDF then d else addMissing d fs

/-! ## Row-level model of the silver-stage pipeline (`data_processor.py`)

`load_clean_finess` / `load_clean_has` build output frames column by
column, but every column operation involved is element-wise, so the
transforms are embedded as per-row functions.  Missing files are `none`
inputs; `uuid.uuid4()` draws and `pd.Timestamp.now()` are modelled by an
identifier supply `Nat → String` and a `now` cell passed in. -/

/-- A row of `finess_clean.csv` restricted to the columns
`load_clean_finess` reads (`data_processor.py:102-130`). -/
structure FinessRaw where
  finess_et : Cell
  siret : Cell
  rslongue : Cell
  rs : Cell
  numvoie : Cell
  typvoie : Cell
  voie : Cell
  lieuditbp : Cell
  ligneacheminement : Cell
  libsph : Cell
deriving DecidableEq

/-- Python `str.strip()`. -/
def pyStrip (s : String) : String :=
  String.mk (((s.toList.dropWhile isSpaceChar).reverse.dropWhile isSpaceChar).reverse)

/-- Address assembly (`data_processor.py:110-112`): join the non-null
address parts with single spaces. -/
def joinParts (cs : List Cell) : String :=
  String.intercalate " " (cs.filterMap id)

/-- A row of the transformed Etablissement frame built by
`load_clean_finess` (column insertion order of `data_processor.py:102-152`). -/
structure EtabRow where
  finess_et : String
  siret : String
  raison_sociale : Cell
  adresse_postale : String
  code_postal : Option Nat
  categorie_detail : String
  categorie_etab : String
  departement : Option String
  vel_id : String
  date_created : Cell
  date_updated : Cell
  source : String
deriving DecidableEq

/-- The per-row content of `load_clean_finess`'s column constructions
(`data_processor.py:98-152`). -/
def transformFinessRow (uuid : String) (now : Cell) (r : FinessRaw) : EtabRow :=
  { finess_et := normFinessEtab (cellStr r.finess_et)
    siret := String.mk (stripDot0 (cellStr r.siret).toList)
    raison_sociale := match r.rslongue with | some v => some v | none => r.rs
    adresse_postale := joinParts [r.numvoie, r.typvoie, r.voie, r.lieuditbp]
    code_postal := postalCode (cellStr r.ligneacheminement)
    categorie_detail := pyStrip (cellStr r.libsph)
    categorie_etab := mapCategory r.libsph
    departement := extractDept (postalCode (cellStr r.ligneacheminement))
    vel_id := uuid
    date_created := now
    date_updated := now
    source := "Data.gouv" }

/-- Map with the running row index, used to attach one fresh identifier per
row (`[uuid.uuid4() for _ in range(len(clean_df))]`). -/
def mapWithIdx (f : Nat → α → β) : Nat → List α → List β
  | _, [] => []
  | i, a :: as => f i a :: mapWithIdx f (i + 1) as

/-- `DataProcessor.load_clean_finess` (`data_processor.py:70-159`): a
missing `finess_clean.csv` returns the not-found signal `none`; otherwise
every raw row is transformed and given a fresh `vel_id`. -/
def loadCleanFiness (file : Option (List FinessRaw)) (uuids : Nat → String)
    (now : Cell) : Option (List EtabRow) :=
  match file with
  | none => none
  | some rows => some (mapWithIdx (fun i r => transformFinessRow (uuids i) now r) 0 rows)

/-- A row of `has_demarche_clean.csv` restricted to the columns read. -/
structure DemRow where
  code_demarche : Cell
  decision_de_la_cces : Cell
  date_de_decision : Cell
deriving DecidableEq

/-- A row of `has_etab_geo_clean.csv` restricted to the columns read (the
`finess_eg` layout of the source files). -/
structure GeoRow where
  code_demarche : Cell
  finess_eg : Cell
deriving DecidableEq

/-- pandas merge-key equality: null keys never match. -/
def keyMatch (a b : Cell) : Bool :=
  match a, b with
  | some x, some y => x == y
  | _, _ => false

/-- `pd.merge(df_dem, df_geo, on='code_demarche', how='inner')`
(`data_processor.py:192`): left-row order, ties in right-row order. -/
def mergeHas : List DemRow → List GeoRow → List (DemRow × GeoRow)
  | [], _ => []
  | d :: ds, gs =>
    (gs.filter (fun g => keyMatch d.code_demarche g.code_demarche)).map (fun g => (d, g))
      ++ mergeHas ds gs

/-- Day-first date coercion `pd.to_datetime(x, dayfirst=True,
errors='coerce')`, modelled on the slash-separated day-first layout of the
source files; anything unparseable coerces to null. -/
def parseDateDayfirst (c : Cell) : Cell :=
  match c with
  | none => none
  | some s =>
    match s.splitOn "/" with
    | [d0, m0, y0] =>
      match parseDigits d0.toList, parseDigits m0.toList, parseDigits y0.toList with
      | some dd, some mm, some yy =>
        if 1 ≤ dd ∧ dd ≤ 31 ∧ 1 ≤ mm ∧ mm ≤ 12 then
          some (natDec yy ++ "-" ++ natDec mm ++ "-" ++ natDec dd)
        else none
      | _, _, _ => none
    | _ => none

/-- A row of the frame built by `load_clean_has`
(`data_processor.py:202-222`), before linking to establishments. -/
structure QualRaw where
  finess_et_link : String
  qua_id : String
  niveau_certification : Cell
  url_rapport : Cell
  date_visite : Cell
  source : Cell
  freshness : Cell
  date_created : Cell
  date_updated : Cell
deriving DecidableEq

/-- The per-row content of `load_clean_has`'s column constructions. -/
def toQualRaw (uuid : String) (now : Cell) (p : DemRow × GeoRow) : QualRaw :=
  { finess_et_link := normFinessQual (cellStr p.2.finess_eg)
    qua_id := uuid
    niveau_certification := p.1.decision_de_la_cces
    url_rapport :=
      match p.1.code_demarche with
      | none => none
      | some x => some ("https://www.has-sante.fr/jcms/c_" ++ x)
    date_visite := parseDateDayfirst p.1.date_de_decision
    source := some "HAS"
    freshness := some "Bisannuelle"
    date_created := now
    date_updated := now }

/-- `DataProcessor.load_clean_has` (`data_processor.py:161-229`): either
HAS file missing returns the not-found signal `none`; otherwise the two
files are inner-merged on `code_demarche` and transformed. -/
def loadCleanHas (dem : Option (List DemRow)) (geo : Option (List GeoRow))
    (uuids : Nat → String) (now : Cell) : Option (List QualRaw) :=
  match dem, geo with
  | some ds, some gs =>
    some (mapWithIdx (fun i p => toQualRaw (uuids i) now p) 0 (mergeHas ds gs))
  | _, _ => none

/-! ## Health-metrics loader and `process_year` -/

/-- The health-metrics frame keeps its dynamic raw column set
(`clean_df = df.copy()`), so it is embedded as a header plus rows. -/
structure RawTable where
  header : List String
  rows : List (List Cell)
deriving DecidableEq

/-- `next((c for c in df.columns if 'finess' in c), None)`
(`data_processor.py:251`). -/
def findFinessCol (hs : List String) : Option String :=
  hs.find? (fun c => containsSub "finess".toList c.toList)

/-- `row[c]` by column name: the cell under the first header occurrence of
`c`, null when the column is absent. -/
def getCell (hs : List String) (row : List Cell) (c : String) : Cell :=
  match hs.findIdx? (fun h => h == c) with
  | none => none
  | some i => (row.getD i none)

/-- `t[name] = f(row)`: append a derived column. -/
def addDerivedCol (t : RawTable) (name : String) (f : List Cell → Cell) : RawTable :=
  ⟨t.header ++ [name], t.rows.map (fun r => r ++ [f r])⟩

/-- `t[name] = const`: append a constant column. -/
def addConstCol (t : RawTable) (name : String) (c : Cell) : RawTable :=
  ⟨t.header ++ [name], t.rows.map (fun r => r ++ [c])⟩

/-- `t[name] = per-row supply`: append one fresh identifier per row. -/
def addIdxCol (t : RawTable) (name : String) (ids : Nat → String) : RawTable :=
  ⟨t.header ++ [name], mapWithIdx (fun i r => r ++ [some (ids i)]) 0 t.rows⟩

/-- `DataProcessor.load_clean_health_metrics`
(`data_processor.py:231-270`): a missing file returns the not-found signal
`none`; otherwise, when some column name contains `'finess'`, a normalized
`finess_et_link` column is appended, and metadata columns are added. -/
def loadCleanHealthMetrics (file : Option RawTable) (uuids : Nat → String)
    (now : Cell) : Option RawTable :=
  match file with
  | none => none
  | some t =>
    let t1 :=
      match findFinessCol t.header with
      | some c =>
        addDerivedCol t "finess_et_link"
          (fun row => some (normFinessMetrics (cellStr (getCell t.header row c))))
      | none => t
    some (addConstCol (addConstCol (addIdxCol t1 "metric_id" uuids)
      "source_file" (some "health_metrics.xlsx")) "processed_at" now)

/-- The `df_etab[['finess_et', 'vel_id']]` projection used as the right
side of both linking merges (`data_processor.py:292` and `:313`). -/
structure EtabKey where
  finess_et : String
  vel_id : String
deriving DecidableEq

/-- `pd.merge(df_qual_raw, df_etab[['finess_et','vel_id']],
left_on='finess_et_link', right_on='finess_et', how='inner')`
(`data_processor.py:290-296`). -/
def mergeQual : List QualRaw → List EtabKey → List (QualRaw × EtabKey)
  | [], _ => []
  | q :: qs, es =>
    (es.filter (fun e => e.finess_et == q.finess_et_link)).map (fun e => (q, e))
      ++ mergeQual qs es

/-- A row of the final Qualification table: the `Qualification` dataclass
fields of `schemas.py`, in declaration order, as selected by
`_enforce_schema(merged_qual, Qualification)`. -/
structure QualFinalRow where
  qua_id : String
  vel_id : String
  niveau_certification : Cell
  date_visite : Cell
  url_rapport : Cell
  date_created : Cell
  date_updated : Cell
  source : Cell
  freshness : Cell
deriving DecidableEq

/-- The schema projection of one merged qualification row: every
`Qualification` field is present in the merged frame, so enforcement keeps
the listed fields and drops `finess_et_link` / `finess_et`. -/
def toQualFinal (p : QualRaw × EtabKey) : QualFinalRow :=
  { qua_id := p.1.qua_id
    vel_id := p.2.vel_id
    niveau_certification := p.1.niveau_certification
    date_visite := p.1.date_visite
    url_rapport := p.1.url_rapport
    date_created := p.1.date_created
    date_updated := p.1.date_updated
    source := p.1.source
    freshness := p.1.freshness }

/-- The final Qualification table for a raw qualification frame and the
establishment key frame (`data_processor.py:286-305`). -/
def qualFinalTable (qs : List QualRaw) (es : List EtabKey) : List QualFinalRow :=
  (mergeQual qs es).map toQualFinal

/-- A row of the final Etablissement table: the `Etablissement` dataclass
fields in declaration order; `freshness` is absent from the transformed
frame and is filled with null by `_enforce_schema`. -/
structure EtabFinalRow where
  vel_id : String
  finess_et : String
  siret : String
  raison_sociale : Cell
  categorie_etab : String
  categorie_detail : String
  adresse_postale : String
  code_postal : Option Nat
  departement : Option String
  date_created : Cell
  date_updated : Cell
  source : String
  freshness : Cell
deriving DecidableEq

/-- The schema projection of one transformed establishment row. -/
def toEtabFinal (r : EtabRow) : EtabFinalRow :=
  { vel_id := r.vel_id
    finess_et := r.finess_et
    siret := r.siret
    raison_sociale := r.raison_sociale
    categorie_etab := r.categorie_etab
    categorie_detail := r.categorie_detail
    adresse_postale := r.adresse_postale
    code_postal := r.code_postal
    departement := r.departement
    date_created := r.date_created
    date_updated := r.date_updated
    source := r.source
    freshness := none }

/-- The `HealthMetrics` dataclass fields of `schemas.py`, in declaration
order. -/
def healthMetricsFields : List String :=
  ["metric_id", "vel_id", "score_all_ssr_ajust", "score_ajust_esatis_region",
   "score_accueil_ssr_ajust", "score_pec_ssr_ajust", "score_lieu_ssr_ajust",
   "score_repas_ssr_ajust", "score_sortie_ssr_ajust", "classement",
   "evolution", "participation", "depot", "annee", "date_created", "source"]

/-- `pd.merge(df_metrics_raw, df_etab[['finess_et','vel_id']],
left_on='finess_et_link', right_on='finess_et', how='inner')`
(`data_processor.py:311-317`). -/
def mergeMetrics (t : RawTable) (es : List EtabKey) : RawTable :=
  ⟨t.header ++ ["finess_et", "vel_id"],
   t.rows.flatMap (fun row =>
     (es.filter (fun e =>
        match getCell t.header row "finess_et_link" with
        | some s => e.finess_et == s
        | none => false)).map
       (fun e => row ++ [some e.finess_et, some e.vel_id]))⟩

/-- The outcome of one `process_year` run, including the files written by
`save_processed` (`data_processor.py:339-355`): establishments always, the
other two tables only when non-empty. -/
structure RunOutput where
  etablissements : List EtabFinalRow
  qualifications : List QualFinalRow
  health_metrics : List (List Cell)
  written : List String
deriving DecidableEq

/-- `DataProcessor.process_year` (`data_processor.py:273-337`): load the
three sources; a missing establishment source aborts the run with no output
and nothing written; a missing optional source leaves its table empty while
the rest of the run proceeds. -/
def processYear (year : Nat) (finessFile : Option (List FinessRaw))
    (demFile : Option (List DemRow)) (geoFile : Option (List GeoRow))
    (metricsFile : Option RawTable) (uE uQ uM : Nat → String) (now : Cell) :
    Option RunOutput :=
  match loadCleanFiness finessFile uE now with
  | none => none
  | some etab =>
    let etabFinal := etab.map toEtabFinal
    let keys := etab.map (fun r => EtabKey.mk r.finess_et r.vel_id)
    let quals : List QualFinalRow :=
      match loadCleanHas demFile geoFile uQ now with
      | none => []
      | some qs => qualFinalTable qs keys
    let metrics : List (List Cell) :=
      match loadCleanHealthMetrics metricsFile uM now with
      | none => []
      | some t =>
        if t.header.contains "finess_et_link" then
          let m2 := addConstCol (addConstCol (mergeMetrics t keys) "annee"
            (some (natDec year))) "source" (some "IQSS")
          m2.rows.map (fun row => healthMetricsFields.map (fun f => getCell m2.header row f))
        else []
    some ⟨etabFinal, quals, metrics,
      ["etablissements.csv"]
        ++ (if quals.isEmpty then [] else ["qualifications.csv"])
        ++ (if metrics.isEmpty then [] else ["health_metrics.csv"])⟩

/-- The files written by a run: `save_processed` is only reached when the
establishment source was present. -/
def processYearWrites (year : Nat) (finessFile : Option (List FinessRaw))
    (demFile : Option (List DemRow)) (geoFile : Option (List GeoRow))
    (metricsFile : Option RawTable) (uE uQ uM : Nat → String) (now : Cell) :
    List String :=
  match processYear year finessFile demFile geoFile metricsFile uE uQ uM now with
  | none => []
  | some o => o.written

/-! ## Helper lemmas -/

theorem natDecAux_length (fuel : Nat) :
    ∀ n k : Nat, n < fuel → n < 10 ^ (k + 1) → (natDecAux fuel n).length ≤ k + 1 := by
  induction fuel with
  | zero => intro n k hf _; omega
  | succ fuel ih =>
    intro n k hf hn
    by_cases h10 : n < 10
    · simp [natDecAux, h10]
    · rw [natDecAux, if_neg h10, List.length_append]
      cases k with
      | zero => omega
      | succ k' =>
        have hdiv : n / 10 < n := Nat.div_lt_self (by omega) (by omega)
        have h1 : n / 10 < fuel := by omega
        have h2 : n / 10 < 10 ^ (k' + 1) := by
          rw [Nat.div_lt_iff_lt_mul (by omega)]
          calc n < 10 ^ (k' + 2) := hn
            _ = 10 ^ (k' + 1) * 10 := by ring
        have := ih (n / 10) k' h1 h2
        simp only [List.length_singleton]
        omega

theorem natDecL_length_le (n k : Nat) (h : n < 10 ^ (k + 1)) :
    (natDecL n).length ≤ k + 1 :=
  natDecAux_length (n + 1) n k (by omega) h

theorem zfillL_length (w : Nat) (l : List Char) (h : l.length ≤ w) :
    (zfillL w l).length = w := by
  simp only [zfillL, List.length_append, List.length_replicate]
  omega

/-! ## Claims -/

/-- C1 counterexample: the claim puts the ESPIC rule before the private
rule, so it requires every input containing `'ESPIC'` (any case) to map to
the same non-profit-private label.  The code checks the private term first:
`"prive espic"` and `"espic"` both contain `'espic'`, yet the code maps
them to the two different labels `'Privé'` and `'ESPIC'`. -/
theorem mapCategory_espic_counterexample :
    containsSub "espic".toList (pyLower "prive espic").toList = true ∧
    containsSub "espic".toList (pyLower "espic").toList = true ∧
    mapCategory (some "prive espic") = "Privé" ∧
    mapCategory (some "espic") = "ESPIC" ∧
    mapCategory (some "prive espic") ≠ mapCategory (some "espic") := by
  refine ⟨by decide, by decide, by decide, by decide, by decide⟩

/-- C1 (amended): classification lowercases the text and applies the
ordered rules with the first match winning, in the code's order: `'public'`
gives `'Public'`; then the private term (`'privé'`/`'prive'`) gives
`'Privé'`; then `'espic'` gives `'ESPIC'`; otherwise `'Autre'`. -/
theorem mapCategory_rule_order (s : String) :
    (containsSub "public".toList (pyLower s).toList = true →
      mapCategory (some s) = "Public") ∧
    (containsSub "public".toList (pyLower s).toList = false →
      (containsSub "privé".toList (pyLower s).toList = true ∨
       containsSub "prive".toList (pyLower s).toList = true) →
      mapCategory (some s) = "Privé") ∧
    (containsSub "public".toList (pyLower s).toList = false →
     containsSub "privé".toList (pyLower s).toList = false →
     containsSub "prive".toList (pyLower s).toList = false →
     containsSub "espic".toList (pyLower s).toList = true →
      mapCategory (some s) = "ESPIC") ∧
    (containsSub "public".toList (pyLower s).toList = false →
     containsSub "privé".toList (pyLower s).toList = false →
     containsSub "prive".toList (pyLower s).toList = false →
     containsSub "espic".toList (pyLower s).toList = false →
      mapCategory (some s) = "Autre") := by
  refine ⟨?_, ?_, ?_, ?_⟩
  · intro h; simp at h; simp [mapCategory, cellStr, h]
  · intro h hp
    simp at h
    rcases hp with hp | hp <;> simp at hp <;> simp [mapCategory, cellStr, h, hp]
  · intro h1 h2 h3 h4
    simp at h1 h2 h3 h4
    simp [mapCategory, cellStr, h1, h2, h3, h4]
  · intro h1 h2 h3 h4
    simp at h1 h2 h3 h4
    simp [mapCategory, cellStr, h1, h2, h3, h4]

/-- C1 witness: the amended rule list evaluated on the concrete label
`"ESPIC hors CLCC"`. -/
theorem mapCategory_rule_order_witness :
    mapCategory (some "ESPIC hors CLCC") = "ESPIC" :=
  (mapCategory_rule_order "ESPIC hors CLCC").2.2.1
    (by decide) (by decide) (by decide) (by decide)

/-- C2: a null postal code gives a null department; for every valid 5-digit
postal code, the zero-padded decimal string has exactly 5 characters, and
the department is its first 3 characters when it starts with `"97"`, its
first 2 characters otherwise. -/
theorem extractDept_department (n : Nat) (h : n < 100000) :
    extractDept none = none ∧
    (zfillL 5 (natDecL n)).length = 5 ∧
    ((zfillL 5 (natDecL n)).take 2 = ['9', '7'] →
      extractDept (some n) = some (String.mk ((zfillL 5 (natDecL n)).take 3)) ∧
      ((zfillL 5 (natDecL n)).take 3).length = 3) ∧
    ((zfillL 5 (natDecL n)).take 2 ≠ ['9', '7'] →
      extractDept (some n) = some (String.mk ((zfillL 5 (natDecL n)).take 2)) ∧
      ((zfillL 5 (natDecL n)).take 2).length = 2) := by
  have h5 : (zfillL 5 (natDecL n)).length = 5 := by
    refine zfillL_length 5 _ (natDecL_length_le n 4 ?_)
    norm_num
    omega
  refine ⟨rfl, h5, ?_, ?_⟩
  · intro ht
    refine ⟨by simp [extractDept, ht], ?_⟩
    simp [List.length_take, h5]
  · intro ht
    refine ⟨by simp [extractDept, ht], ?_⟩
    simp [List.length_take, h5]

/-- C2 witness: postal code 97200 gives department `"972"`, postal code
1300 (the 5-digit code 01300) gives department `"01"`. -/
theorem extractDept_department_witness :
    extractDept (some 97200) = some "972" ∧ extractDept (some 1300) = some "01" := by
  have h1 := extractDept_department 97200 (by omega)
  have h2 := extractDept_department 1300 (by omega)
  exact ⟨((h1.2.2.1 (by decide)).1).trans (by decide),
         ((h2.2.2.2 (by decide)).1).trans (by decide)⟩

/-- C3: for every facility-code string whose post-`".0"`-strip form is a
numeric string of at most 9 characters, the normalized code has exactly 9
characters and is that string left-padded with zeros; the establishment,
qualification and health-metrics extractors normalize identically. -/
theorem finess_normalization (s : String)
    (hlen : (stripDot0 s.toList).length ≤ 9)
    (hdig : ∀ c ∈ stripDot0 s.toList, c.isDigit = true) :
    (normFinessEtab s).length = 9 ∧
    normFinessEtab s =
      String.mk (List.replicate (9 - (stripDot0 s.toList).length) '0' ++ stripDot0 s.toList) ∧
    normFinessQual s = normFinessEtab s ∧
    normFinessMetrics s = normFinessEtab s := by
  refine ⟨?_, rfl, rfl, rfl⟩
  show (zfillL 9 (stripDot0 s.toList)).length = 9
  exact zfillL_length 9 _ hlen

/-- C3 witness: the float artifact `"12345.0"` normalizes to
`"000012345"`. -/
theorem finess_normalization_witness :
    normFinessEtab "12345.0" = "000012345" ∧ (normFinessEtab "12345.0").length = 9 := by
  have h := finess_normalization "12345.0" (by decide) (by decide)
  exact ⟨h.2.1.trans (by decide), h.1⟩

/-- C6: schema enforcement on a frame with zero rows short-circuits to the
explicitly empty frame, with no target columns inserted and no nulls
filled, whatever columns the input had. -/
theorem enforceSchema_empty (d : DF) (fs : List String) (h : d.nRows = 0) :
    enforceSchema d fs = ⟨0, []⟩ := by
  simp [enforceSchema, DF.isEmptyDF, h]

/-- C6 witness: a zero-row frame that has a column, enforced against a
two-field schema, returns the empty frame. -/
theorem enforceSchema_empty_witness :
    enforceSchema ⟨0, [("a", [])]⟩ ["x", "y"] = ⟨0, []⟩ :=
  enforceSchema_empty ⟨0, [("a", [])]⟩ ["x", "y"] rfl

theorem lookupCol_append_left (cs ds : List (String × List Cell)) (f : String)
    (h : hasCol cs f = true) : lookupCol (cs ++ ds) f = lookupCol cs f := by
  induction cs with
  | nil => simp [hasCol] at h
  | cons p rest ih =>
    obtain ⟨n, v⟩ := p
    simp only [hasCol, Bool.or_eq_true, beq_iff_eq] at h
    by_cases hn : n = f
    · simp [lookupCol, hn]
    · have : hasCol rest f = true := by
        rcases h with h | h
        · exact absurd h hn
        · exact h
      simp [lookupCol, hn, ih this]

theorem lookupCol_append_right (cs ds : List (String × List Cell)) (f : String)
    (h : hasCol cs f = false) : lookupCol (cs ++ ds) f = lookupCol ds f := by
  induction cs with
  | nil => simp
  | cons p rest ih =>
    obtain ⟨n, v⟩ := p
    simp only [hasCol, Bool.or_eq_false_iff, beq_eq_false_iff_ne, ne_eq] at h
    simp [lookupCol, h.1, ih h.2]

theorem hasCol_append (cs ds : List (String × List Cell)) (f : String) :
    hasCol (cs ++ ds) f = (hasCol cs f || hasCol ds f) := by
  induction cs with
  | nil => simp [hasCol]
  | cons p rest ih => simp [hasCol, ih, Bool.or_assoc]

theorem hasCol_lookup (cs : List (String × List Cell)) (f : String)
    (h : hasCol cs f = true) : ∃ v, lookupCol cs f = some v := by
  induction cs with
  | nil => simp [hasCol] at h
  | cons p rest ih =>
    obtain ⟨n, v⟩ := p
    simp only [hasCol, Bool.or_eq_true, beq_iff_eq] at h
    by_cases hn : n = f
    · exact ⟨v, by simp [lookupCol, hn]⟩
    · have : hasCol rest f = true := by
        rcases h with h | h
        · exact absurd h hn
        · exact h
      obtain ⟨w, hw⟩ := ih this
      exact ⟨w, by simp [lookupCol, hn, hw]⟩

theorem addMissing_nRows (fs : List String) : ∀ d : DF, (addMissing d fs).nRows = d.nRows := by
  induction fs with
  | nil => intro d; rfl
  | cons g rest ih =>
    intro d
    rw [addMissing]
    by_cases hg : hasCol d.cols g = true
    · simp [hg, ih]
    · simp only [Bool.not_eq_true] at hg
      simp [hg, ih]

theorem addMissing_hasCol_of (fs : List String) :
    ∀ (d : DF) (f : String), hasCol d.cols f = true →
      hasCol (addMissing d fs).cols f = true := by
  induction fs with
  | nil => intro d f h; exact h
  | cons g rest ih =>
    intro d f h
    rw [addMissing]
    by_cases hg : hasCol d.cols g = true
    · simp only [hg, if_true]
      exact ih d f h
    · simp only [Bool.not_eq_true] at hg
      simp only [hg, Bool.false_eq_true, if_false]
      refine ih _ f ?_
      simp [hasCol_append, h]

theorem addMissing_hasCol_mem (fs : List String) :
    ∀ (d : DF) (f : String), f ∈ fs → hasCol (addMissing d fs).cols f = true := by
  induction fs with
  | nil => intro d f h; simp at h
  | cons g rest ih =>
    intro d f h
    rw [addMissing]
    by_cases hg : hasCol d.cols g = true
    · simp only [hg, if_true]
      rcases List.mem_cons.mp h with rfl | hf
      · exact addMissing_hasCol_of rest d f hg
      · exact ih d f hf
    · simp only [Bool.not_eq_true] at hg
      simp only [hg, Bool.false_eq_true, if_false]
      rcases List.mem_cons.mp h with rfl | hf
      · refine addMissing_hasCol_of rest _ f ?_
        simp [hasCol_append, hasCol]
      · exact ih _ f hf

theorem addMissing_lookup_pres (fs : List String) :
    ∀ (d : DF) (f : String), hasCol d.cols f = true →
      lookupCol (addMissing d fs).cols f = lookupCol d.cols f := by
  induction fs with
  | nil => intro d f _; rfl
  | cons g rest ih =>
    intro d f h
    rw [addMissing]
    by_cases hg : hasCol d.cols g = true
    · simp only [hg, if_true]
      exact ih d f h
    · simp only [Bool.not_eq_true] at hg
      simp only [hg, Bool.false_eq_true, if_false]
      have h' : hasCol (d.cols ++ [(g, List.replicate d.nRows none)]) f = true := by
        simp [hasCol_append, h]
      rw [ih _ f h']
      exact lookupCol_append_left _ _ f h

theorem addMissing_lookup_new (fs : List String) :
    ∀ (d : DF) (f : String), hasCol d.cols f = false → f ∈ fs →
      lookupCol (addMissing d fs).cols f = some (List.replicate d.nRows none) := by
  induction fs with
  | nil => intro d f _ h; simp at h
  | cons g rest ih =>
    intro d f hnot hmem
    rw [addMissing]
    by_cases hg : hasCol d.cols g = true
    · simp only [hg, if_true]
      rcases List.mem_cons.mp hmem with rfl | hf
      · rw [hnot] at hg; exact absurd hg (by simp)
      · exact ih d f hnot hf
    · simp only [Bool.not_eq_true] at hg
      simp only [hg, Bool.false_eq_true, if_false]
      by_cases hfg : f = g
      · subst hfg
        have h' : hasCol (d.cols ++ [(f, List.replicate d.nRows none)]) f = true := by
          simp [hasCol_append, hasCol]
        rw [addMissing_lookup_pres rest _ f h']
        rw [lookupCol_append_right _ _ f hnot]
        simp [lookupCol]
      · have hf : f ∈ rest := by
          rcases List.mem_cons.mp hmem with h | h
          · exact absurd h hfg
          · exact h
        have h' : hasCol (d.cols ++ [(g, List.replicate d.nRows none)]) f = false := by
          simp only [hasCol_append, hnot, Bool.false_or, hasCol]
          simp [Ne.symm hfg]
        exact ih _ f h' hf

theorem addMissing_names (fs : List String) :
    ∀ d : DF, ∃ extra, colNames (addMissing d fs) = colNames d ++ extra ∧
      ∀ f ∈ extra, f ∈ fs := by
  induction fs with
  | nil => intro d; exact ⟨[], by simp [addMissing], by simp⟩
  | cons g rest ih =>
    intro d
    rw [addMissing]
    by_cases hg : hasCol d.cols g = true
    · simp only [hg, if_true]
      obtain ⟨extra, he, hsub⟩ := ih d
      exact ⟨extra, he, fun f hf => List.mem_cons_of_mem g (hsub f hf)⟩
    · simp only [Bool.not_eq_true] at hg
      simp only [hg, Bool.false_eq_true, if_false]
      obtain ⟨extra, he, hsub⟩ := ih ⟨d.nRows, d.cols ++ [(g, List.replicate d.nRows none)]⟩
      refine ⟨g :: extra, ?_, ?_⟩
      · rw [he]
        simp [colNames]
      · intro f hf
        rcases List.mem_cons.mp hf with rfl | hf
        · exact List.mem_cons_self f rest
        · exact List.mem_cons_of_mem g (hsub f hf)

theorem lookupCol_mapped (g : String → List Cell) (fs : List String) (x : String) :
    lookupCol (fs.map (fun f => (f, g f))) x = if x ∈ fs then some (g x) else none := by
  induction fs with
  | nil => simp [lookupCol]
  | cons f rest ih =>
    by_cases hf : f = x
    · subst hf
      simp [lookupCol]
    · simp only [List.map_cons, lookupCol, hf, if_false, ih]
      simp [List.mem_cons, Ne.symm hf]

/-- C5: on a non-empty frame, schema enforcement returns a frame whose
columns are exactly the target fields in target order, with unchanged row
count; a target field absent from the input comes back as a column of
nulls, a target field present in the input keeps its column, and a column
outside the target list is absent from the output. -/
theorem enforceSchema_projection (d : DF) (fs : List String) (h : d.isEmptyDF = false) :
    (enforceSchema d fs).nRows = d.nRows ∧
    colNames (enforceSchema d fs) = fs ∧
    (∀ f ∈ fs, hasCol d.cols f = false →
      lookupCol (enforceSchema d fs).cols f = some (List.replicate d.nRows none)) ∧
    (∀ f ∈ fs, hasCol d.cols f = true →
      lookupCol (enforceSchema d fs).cols f = lookupCol d.cols f) ∧
    (∀ f, f ∉ fs → lookupCol (enforceSchema d fs).cols f = none) := by
  have he : enforceSchema d fs = selectCols (addMissing d fs) fs := by
    simp [enforceSchema, h]
  rw [he]
  refine ⟨?_, ?_, ?_, ?_, ?_⟩
  · show (addMissing d fs).nRows = d.nRows
    exact addMissing_nRows fs d
  · simp [colNames, selectCols, List.map_map, Function.comp_def]
  · intro f hf habs
    show lookupCol (fs.map (fun f => (f, (lookupCol (addMissing d fs).cols f).getD []))) f
        = some (List.replicate d.nRows none)
    rw [lookupCol_mapped, if_pos hf, addMissing_lookup_new fs d f habs hf]
    rfl
  · intro f hf hpres
    obtain ⟨v, hv⟩ := hasCol_lookup d.cols f hpres
    show lookupCol (fs.map (fun f => (f, (lookupCol (addMissing d fs).cols f).getD []))) f
        = lookupCol d.cols f
    rw [lookupCol_mapped, if_pos hf, addMissing_lookup_pres fs d f hpres, hv]
    rfl
  · intro f hf
    show lookupCol (fs.map (fun f => (f, (lookupCol (addMissing d fs).cols f).getD []))) f
        = none
    rw [lookupCol_mapped, if_neg hf]

/-- C5 witness: a one-row frame with columns `"a"`, `"z"` enforced against
the schema `["a", "b"]`: column order becomes `["a", "b"]`, `"b"` is a null
column, `"a"` keeps its value, `"z"` is gone, and one row remains. -/
theorem enforceSchema_projection_witness :
    (enforceSchema ⟨1, [("a", [some "x"]), ("z", [some "y"])]⟩ ["a", "b"]).nRows = 1 ∧
    colNames (enforceSchema ⟨1, [("a", [some "x"]), ("z", [some "y"])]⟩ ["a", "b"]) = ["a", "b"] ∧
    lookupCol (enforceSchema ⟨1, [("a", [some "x"]), ("z", [some "y"])]⟩ ["a", "b"]).cols "b"
      = some [none] ∧
    lookupCol (enforceSchema ⟨1, [("a", [some "x"]), ("z", [some "y"])]⟩ ["a", "b"]).cols "a"
      = some [some "x"] ∧
    lookupCol (enforceSchema ⟨1, [("a", [some "x"]), ("z", [some "y"])]⟩ ["a", "b"]).cols "z"
      = none := by
  have h := enforceSchema_projection ⟨1, [("a", [some "x"]), ("z", [some "y"])]⟩ ["a", "b"] rfl
  refine ⟨h.1, h.2.1, ?_, ?_, ?_⟩
  · rw [h.2.2.1 "b" (by simp) (by decide)]
    rfl
  · rw [h.2.2.2.1 "a" (by simp) (by decide)]
    rfl
  · exact h.2.2.2.2 "z" (by decide)

/-- C10: `_enforce_schema` mutates its non-empty argument in place: after
the call the caller's frame still has its original row count, its original
columns (names and values unchanged, as a prefix), and in addition every
target field, where each target field that was absent is now a column of
nulls. -/
theorem enforceSchema_mutates_argument (d : DF) (fs : List String)
    (h : d.isEmptyDF = false) :
    (enforceArgAfter d fs).nRows = d.nRows ∧
    (∃ extra, colNames (enforceArgAfter d fs) = colNames d ++ extra ∧
      ∀ f ∈ extra, f ∈ fs) ∧
    (∀ f ∈ fs, hasCol (enforceArgAfter d fs).cols f = true) ∧
    (∀ f ∈ fs, hasCol d.cols f = false →
      lookupCol (enforceArgAfter d fs).cols f = some (List.replicate d.nRows none)) ∧
    (∀ f, hasCol d.cols f = true →
      lookupCol (enforceArgAfter d fs).cols f = lookupCol d.cols f) := by
  have he : enforceArgAfter d fs = addMissing d fs := by
    simp [enforceArgAfter, h]
  rw [he]
  refine ⟨addMissing_nRows fs d, addMissing_names fs d, ?_, ?_, ?_⟩
  · intro f hf
    exact addMissing_hasCol_mem fs d f hf
  · intro f hf habs
    exact addMissing_lookup_new fs d f habs hf
  · intro f hpres
    exact addMissing_lookup_pres fs d f hpres

/-- C10 witness: enforcing `["a", "b"]` on the one-row frame with single
column `"a"` leaves the caller's frame with columns `["a", "b"]`, the
original `"a"` values, and a null column `"b"`. -/
theorem enforceSchema_mutates_argument_witness :
    (enforceArgAfter ⟨1, [("a", [some "x"])]⟩ ["a", "b"]).nRows = 1 ∧
    hasCol (enforceArgAfter ⟨1, [("a", [some "x"])]⟩ ["a", "b"]).cols "b" = true ∧
    lookupCol (enforceArgAfter ⟨1, [("a", [some "x"])]⟩ ["a", "b"]).cols "b"
      = some [none] ∧
    lookupCol (enforceArgAfter ⟨1, [("a", [some "x"])]⟩ ["a", "b"]).cols "a"
      = some [some "x"] := by
  have h := enforceSchema_mutates_argument ⟨1, [("a", [some "x"])]⟩ ["a", "b"] rfl
  refine ⟨h.1, h.2.2.1 "b" (by simp), ?_, ?_⟩
  · rw [h.2.2.2.1 "b" (by simp) (by decide)]
    rfl
  · rw [h.2.2.2.2 "a" (by decide)]
    decide

theorem mem_mergeQual (qs : List QualRaw) (es : List EtabKey) (q : QualRaw) (e : EtabKey) :
    (q, e) ∈ mergeQual qs es ↔ q ∈ qs ∧ e ∈ es ∧ e.finess_et = q.finess_et_link := by
  induction qs with
  | nil => simp [mergeQual]
  | cons q0 qs ih =>
    simp only [mergeQual, List.mem_append, List.mem_map, List.mem_filter,
      beq_iff_eq, Prod.mk.injEq, ih, List.mem_cons]
    constructor
    · rintro (⟨e0, ⟨he0, hk⟩, rfl, rfl⟩ | ⟨hq, he, hk⟩)
      · exact ⟨Or.inl rfl, he0, hk⟩
      · exact ⟨Or.inr hq, he, hk⟩
    · rintro ⟨rfl | hq, he, hk⟩
      · exact Or.inl ⟨e, ⟨he, hk⟩, rfl, rfl⟩
      · exact Or.inr ⟨hq, he, hk⟩

/-- C4: every row of the final Qualification table originates from a raw
qualification row and a matching establishment row and carries that
establishment's generated `vel_id`; a raw qualification row whose facility
code matches no establishment contributes no row (under the run invariant
that `qua_id` identifiers are distinct); and every matching raw pair does
contribute its row, so several qualifications may link to one
establishment. -/
theorem qualification_inner_join (qs : List QualRaw) (es : List EtabKey)
    (hinj : ∀ q1 ∈ qs, ∀ q2 ∈ qs, q1.qua_id = q2.qua_id → q1 = q2) :
    (∀ r ∈ qualFinalTable qs es, ∃ q ∈ qs, ∃ e ∈ es,
      e.finess_et = q.finess_et_link ∧ r = toQualFinal (q, e) ∧
      r.vel_id = e.vel_id ∧ r.qua_id = q.qua_id) ∧
    (∀ q ∈ qs, (∀ e ∈ es, e.finess_et ≠ q.finess_et_link) →
      ∀ r ∈ qualFinalTable qs es, r.qua_id ≠ q.qua_id) ∧
    (∀ q ∈ qs, ∀ e ∈ es, e.finess_et = q.finess_et_link →
      toQualFinal (q, e) ∈ qualFinalTable qs es) := by
  have hmem : ∀ r ∈ qualFinalTable qs es, ∃ q ∈ qs, ∃ e ∈ es,
      e.finess_et = q.finess_et_link ∧ r = toQualFinal (q, e) ∧
      r.vel_id = e.vel_id ∧ r.qua_id = q.qua_id := by
    intro r hr
    obtain ⟨⟨q, e⟩, hp, rfl⟩ := List.mem_map.mp hr
    obtain ⟨hq, he, hk⟩ := (mem_mergeQual qs es q e).mp hp
    exact ⟨q, hq, e, he, hk, rfl, rfl, rfl⟩
  refine ⟨hmem, ?_, ?_⟩
  · intro q hq hnone r hr heq
    obtain ⟨q', hq', e', he', hk', -, -, hid⟩ := hmem r hr
    have : q' = q := hinj q' hq' q hq (hid ▸ heq)
    subst this
    exact hnone e' he' hk'
  · intro q hq e he hk
    exact List.mem_map.mpr ⟨(q, e), (mem_mergeQual qs es q e).mpr ⟨hq, he, hk⟩, rfl⟩

/-- C4 witness: a single matching raw qualification row and establishment
row produce the linked final row. -/
theorem qualification_inner_join_witness :
    toQualFinal (⟨"000000001", "q1", none, none, none, none, none, none, none⟩,
        ⟨"000000001", "v1"⟩) ∈
      qualFinalTable [⟨"000000001", "q1", none, none, none, none, none, none, none⟩]
        [⟨"000000001", "v1"⟩] := by
  have h := qualification_inner_join
    [⟨"000000001", "q1", none, none, none, none, none, none, none⟩]
    [⟨"000000001", "v1"⟩]
    (by
      intro q1 h1 q2 h2 _
      rw [List.mem_singleton] at h1 h2
      rw [h1, h2])
  exact h.2.2 _ (List.mem_singleton.mpr rfl) _ (List.mem_singleton.mpr rfl) rfl

theorem le_length_takeWhile (p : Char → Bool) (n : Nat) :
    ∀ l : List Char, n ≤ (l.takeWhile p).length ↔ n ≤ l.length ∧ (l.take n).all p = true := by
  induction n with
  | zero => intro l; simp
  | succ n ih =>
    intro l
    cases l with
    | nil => simp
    | cons c cs =>
      by_cases hc : p c = true
      · rw [List.takeWhile_cons_of_pos hc]
        simp only [List.length_cons, Nat.succ_le_succ_iff, List.take_succ_cons,
          List.all_cons, hc, Bool.true_and]
        exact ih cs
      · rw [List.takeWhile_cons_of_neg (by simp [hc])]
        simp [List.take_succ_cons, hc]

theorem takeWhile_append_stop (p : Char → Bool) :
    ∀ a b : List Char, (∀ c ∈ a, p c = true) → (∀ c ∈ b.take 1, p c = false) →
      (a ++ b).takeWhile p = a := by
  intro a
  induction a with
  | nil =>
    intro b _ hb
    cases b with
    | nil => rfl
    | cons c cs =>
      have := hb c (by simp)
      simp [List.takeWhile_cons_of_neg, this]
  | cons x xs ih =>
    intro b ha hb
    have hx : p x = true := ha x (by simp)
    rw [List.cons_append, List.takeWhile_cons_of_pos hx,
      ih b (fun c hc => ha c (by simp [hc])) hb]

theorem dropWhile_append_stop (p : Char → Bool) :
    ∀ a b : List Char, (∀ c ∈ a, p c = true) → (∀ c ∈ b.take 1, p c = false) →
      (a ++ b).dropWhile p = b := by
  intro a
  induction a with
  | nil =>
    intro b _ hb
    cases b with
    | nil => rfl
    | cons c cs =>
      have := hb c (by simp)
      simp [List.dropWhile_cons_of_neg, this]
  | cons x xs ih =>
    intro b ha hb
    have hx : p x = true := ha x (by simp)
    rw [List.cons_append, List.dropWhile_cons_of_pos hx,
      ih b (fun c hc => ha c (by simp [hc])) hb]

theorem isSpaceChar_not_digit (c : Char) (h : isSpaceChar c = true) : c.isDigit = false := by
  simp only [isSpaceChar, Bool.or_eq_true, beq_iff_eq] at h
  rcases h with ((((h | h) | h) | h) | h) | h <;> subst h <;> decide

/-- C7: postal extraction takes the leading 5-digit run when the combined
string starts with at least five digits, falls back to the longest leading
digit run otherwise, and yields a null postal code when the string starts
with no digit — in particular for the stringified null `"nan"`. -/
theorem postal_extraction (s : String) :
    (5 ≤ (s.toList.takeWhile (fun c => c.isDigit)).length →
      extractPostal s = some (String.mk (s.toList.take 5)) ∧
      (s.toList.take 5).all (fun c => c.isDigit) = true) ∧
    (0 < (s.toList.takeWhile (fun c => c.isDigit)).length →
      (s.toList.takeWhile (fun c => c.isDigit)).length < 5 →
      extractPostal s = some (String.mk (s.toList.takeWhile (fun c => c.isDigit)))) ∧
    ((s.toList.takeWhile (fun c => c.isDigit)).length = 0 →
      extractPostal s = none ∧ postalCode s = none) ∧
    extractPostal "nan" = none := by
  refine ⟨?_, ?_, ?_, by decide⟩
  · intro h
    have hc := (le_length_takeWhile (fun c => c.isDigit) 5 s.toList).mp h
    constructor
    · simp only [extractPostal]
      rw [if_pos hc]
    · exact hc.2
  · intro h0 h5
    have hfalse : ¬(5 ≤ s.toList.length ∧ (s.toList.take 5).all (fun c => c.isDigit) = true) := by
      intro hc
      have := (le_length_takeWhile (fun c => c.isDigit) 5 s.toList).mpr hc
      omega
    have hne : (s.toList.takeWhile (fun c => c.isDigit)).isEmpty = false := by
      rw [List.isEmpty_eq_false_iff_exists_mem]
      cases he : s.toList.takeWhile (fun c => c.isDigit) with
      | nil => rw [he] at h0; simp at h0
      | cons a as => exact ⟨a, by simp⟩
    simp only [extractPostal]
    rw [if_neg hfalse, if_neg (by rw [hne]; simp)]
  · intro h
    have he : s.toList.takeWhile (fun c => c.isDigit) = [] := List.length_eq_zero.mp h
    have hfalse : ¬(5 ≤ s.toList.length ∧ (s.toList.take 5).all (fun c => c.isDigit) = true) := by
      intro hc
      have := (le_length_takeWhile (fun c => c.isDigit) 5 s.toList).mpr hc
      omega
    have hext : extractPostal s = none := by
      simp only [extractPostal]
      rw [if_neg hfalse, if_pos (by rw [he]; rfl)]
    exact ⟨hext, by simp [postalCode, hext]⟩

/-- C7 witness: `"01300 BELLEY"` yields the leading 5-digit run `"01300"`;
`"123 X"` falls back to the leading digit run `"123"`; `"nan"` yields a
null postal code. -/
theorem postal_extraction_witness :
    extractPostal "01300 BELLEY" = some "01300" ∧
    extractPostal "123 X" = some "123" ∧
    postalCode "nan" = none := by
  have h1 := (postal_extraction "01300 BELLEY").1 (by decide)
  have h2 := (postal_extraction "123 X").2.1 (by decide) (by decide)
  have h3 := (postal_extraction "nan").2.2.1 (by decide)
  exact ⟨h1.1.trans (by decide), h2.trans (by decide), h3.2⟩

/-- C8: in health-metrics cleaning every text-typed cell loses a leading
prefix made of digits, optional spaces, a hyphen and optional spaces; after
stripping, a value equal to the stringified null `"nan"` becomes null,
other values are kept, a null cell stays null, and the cleaning is applied
to every position of a text-typed column. -/
theorem health_metrics_prefix_strip :
    (∀ ds sp1 sp2 r : List Char,
      ds ≠ [] → (∀ c ∈ ds, c.isDigit = true) →
      (∀ c ∈ sp1, isSpaceChar c = true) → (∀ c ∈ sp2, isSpaceChar c = true) →
      (∀ c ∈ r.take 1, isSpaceChar c = false) →
      stripRank (String.mk (ds ++ (sp1 ++ '-' :: (sp2 ++ r)))) = String.mk r) ∧
    cleanTextVal none = none ∧
    (∀ s : String, stripRank s = "nan" → cleanTextVal (some s) = none) ∧
    (∀ s : String, stripRank s ≠ "nan" → cleanTextVal (some s) = some (stripRank s)) ∧
    (∀ (col : List Cell) (i : Nat), (cleanObjectCol col)[i]? = col[i]?.map cleanTextVal) := by
  refine ⟨?_, rfl, ?_, ?_, ?_⟩
  · intro ds sp1 sp2 r hne hd h1 h2 hr
    have hhead : ∀ c ∈ (sp1 ++ '-' :: (sp2 ++ r)).take 1, (fun c => c.isDigit) c = false := by
      cases sp1 with
      | nil =>
        intro c hc
        simp only [List.nil_append, List.take_succ_cons, List.take_zero, List.mem_singleton] at hc
        subst hc; decide
      | cons a as =>
        intro c hc
        simp only [List.cons_append, List.take_succ_cons, List.take_zero, List.mem_singleton] at hc
        subst hc
        exact isSpaceChar_not_digit _ (h1 _ (List.mem_cons_self _ _))
    have htw : (ds ++ (sp1 ++ '-' :: (sp2 ++ r))).takeWhile (fun c => c.isDigit) = ds :=
      takeWhile_append_stop (fun c => c.isDigit) ds _ hd hhead
    have hdemp : ds.isEmpty = false := by
      cases ds with
      | nil => exact absurd rfl hne
      | cons a as => rfl
    have hsphead : ∀ c ∈ ('-' :: (sp2 ++ r)).take 1, isSpaceChar c = false := by
      intro c hc
      simp only [List.take_succ_cons, List.take_zero, List.mem_singleton] at hc
      subst hc; decide
    have htw2 : (sp1 ++ '-' :: (sp2 ++ r)).takeWhile isSpaceChar = sp1 :=
      takeWhile_append_stop isSpaceChar sp1 _ h1 hsphead
    have hdw : (sp2 ++ r).dropWhile isSpaceChar = r :=
      dropWhile_append_stop isSpaceChar sp2 r h2 hr
    show String.mk (stripRankL ((String.mk (ds ++ (sp1 ++ '-' :: (sp2 ++ r)))).toList)) = String.mk r
    have hlist : (String.mk (ds ++ (sp1 ++ '-' :: (sp2 ++ r)))).toList
        = ds ++ (sp1 ++ '-' :: (sp2 ++ r)) := rfl
    rw [hlist]
    simp only [stripRankL, htw, hdemp, Bool.false_eq_true, if_false,
      List.drop_left, htw2, hdw]
    simp
  · intro s h
    simp [cleanTextVal, cellStr, h]
  · intro s h
    simp [cleanTextVal, cellStr, h]
  · intro col i
    simp [cleanObjectCol]

/-- C8 witness: `"2- Facultatif"` becomes `"Facultatif"`, `"1- Oui"`
becomes `"Oui"`, and a null cell stays null. -/
theorem health_metrics_prefix_strip_witness :
    stripRank "2- Facultatif" = "Facultatif" ∧
    cleanTextVal (some "1- Oui") = some "Oui" ∧
    cleanTextVal none = none := by
  have h := health_metrics_prefix_strip
  have hs : stripRank "2- Facultatif" = "Facultatif" := by
    have := h.1 ['2'] [] [' '] "Facultatif".toList (by decide) (by decide)
      (by decide) (by decide) (by decide)
    exact this
  have ho : stripRank "1- Oui" = "Oui" := by
    have := h.1 ['1'] [] [' '] "Oui".toList (by decide) (by decide)
      (by decide) (by decide) (by decide)
    exact this
  refine ⟨hs, ?_, h.2.1⟩
  rw [h.2.2.2.1 "1- Oui" (by rw [ho]; decide), ho]

/-- C9: a missing input file makes each loader return the not-found signal
`none` instead of failing; a run without the mandatory establishment source
returns no output and writes nothing; a run with establishments but without
the optional sources still produces (and writes) the establishment table,
with the qualification and health-metrics tables left empty. -/
theorem missing_input_handling (year : Nat) (uE uQ uM : Nat → String) (now : Cell) :
    loadCleanFiness none uE now = none ∧
    (∀ g : Option (List GeoRow), loadCleanHas none g uQ now = none) ∧
    (∀ d0 : Option (List DemRow), loadCleanHas d0 none uQ now = none) ∧
    loadCleanHealthMetrics none uM now = none ∧
    (∀ (d0 : Option (List DemRow)) (g : Option (List GeoRow)) (m : Option RawTable),
      processYear year none d0 g m uE uQ uM now = none ∧
      processYearWrites year none d0 g m uE uQ uM now = []) ∧
    (∀ rows : List FinessRaw, ∃ out : RunOutput,
      processYear year (some rows) none none none uE uQ uM now = some out ∧
      out.etablissements =
        (mapWithIdx (fun i r => transformFinessRow (uE i) now r) 0 rows).map toEtabFinal ∧
      out.qualifications = [] ∧ out.health_metrics = [] ∧
      out.written = ["etablissements.csv"]) := by
  refine ⟨rfl, ?_, ?_, rfl, ?_, ?_⟩
  · intro g; cases g <;> rfl
  · intro d0; cases d0 <;> rfl
  · intro d0 g m; exact ⟨rfl, rfl⟩
  · intro rows
    exact ⟨_, rfl, rfl, rfl, rfl, rfl⟩
